import Mathlib

set_option maxRecDepth 100000

/-!
Verification of the document segmentation and retrieval pipeline of the
R.A.G repository.  Texts are modelled as `List Char`; Python string
operations are translated explicitly.  Loops of the source are modelled
with a fuel (gas) parameter large enough for all actual runs; claims
about termination are settled against the fuel-indexed semantics.
-/

namespace RAG

/-- Configuration constants from `rag/config.py`. -/
def CHUNK_SIZE : Nat := 500

/-- `CHUNK_OVERLAP` from `rag/config.py`. -/
def CHUNK_OVERLAP : Nat := 50

/-- The whitespace characters removed by Python `str.strip()`
(ASCII subset, the only ones occurring in the inputs considered). -/
def pyIsSpace (c : Char) : Bool :=
  c = ' ' || c = '\t' || c = '\n' || c = '\r' || c = Char.ofNat 11 || c = Char.ofNat 12

/-- Python `str.strip()`. -/
def pyStrip (l : List Char) : List Char :=
  ((l.dropWhile pyIsSpace).reverse.dropWhile pyIsSpace).reverse

/-- The sentence terminators of `'.!?\n'` used by the chunkers. -/
def isTerm (c : Char) : Bool :=
  c = '.' || c = '!' || c = '?' || c = '\n'

/-- Python `for i in range(hi, lo, -1): if text[i] in '.!?\n': ...` —
descending scan for a sentence terminator.  `steps` is the number of
positions scanned (`hi - lo`), `i` starts at `hi`. -/
def scanBack (text : List Char) : Nat → Nat → Option Nat
  | 0, _ => none
  | s + 1, i => if isTerm (text.getD i 'x') then some i else scanBack text s (i - 1)

/-- The common sliding-window loop of `chunk_simple_text` and
`split_large_chunk` (`rag/chunking.py` lines 189–206 and 217–233; the two
loop bodies in the source are character-for-character identical).
`gas` is fuel; every caller passes enough for the loop to finish. -/
def slideLoop (t : List Char) : Nat → Nat → List (List Char)
  | 0, _ => []
  | gas + 1, start =>
    if start < t.length then
      let e0 := min (start + CHUNK_SIZE) t.length
      -- `if end < text_length:` backward scan over
      -- `range(end, max(start + CHUNK_SIZE - 100, start), -1)`
      let e := if e0 < t.length then
          match scanBack t (e0 - (start + (CHUNK_SIZE - 100))) e0 with
          | some i => i + 1
          | none => e0
        else e0
      let chunk := pyStrip ((t.drop start).take (e - start))
      let rest := slideLoop t gas (start + (CHUNK_SIZE - CHUNK_OVERLAP))
      if chunk ≠ [] then chunk :: rest else rest
    else []

/-- `chunk_simple_text` from `rag/chunking.py`. -/
def chunk_simple_text (t : List Char) : List (List Char) :=
  slideLoop t (t.length + 1) 0

/-- `split_large_chunk` from `rag/chunking.py` (identical loop body). -/
def split_large_chunk (c : List Char) : List (List Char) :=
  slideLoop c (c.length + 1) 0

/-! ### Structured segmentation (`chunk_structured_text`) -/

/-- `re.sub(r'\n{3,}', '\n\n', content)`: a run of `n` newlines is emitted
as `min n 2` newlines (runs of one or two are unchanged).  `run` counts
the newlines already seen in the current run. -/
def squeezeNLAux : List Char → Nat → List Char
  | [], _ => []
  | c :: rest, run =>
    if c = '\n' then (if run < 2 then ['\n'] else []) ++ squeezeNLAux rest (run + 1)
    else c :: squeezeNLAux rest 0

/-- `re.sub(r'\n{3,}', '\n\n', content)`. -/
def squeezeNewlines (l : List Char) : List Char := squeezeNLAux l 0

/-- `re.sub(r' +', ' ', content)`: collapse space runs to a single space. -/
def squeezeSpAux : List Char → Bool → List Char
  | [], _ => []
  | c :: rest, inRun =>
    if c = ' ' then (if inRun then [] else [' ']) ++ squeezeSpAux rest true
    else c :: squeezeSpAux rest false

/-- `re.sub(r' +', ' ', content)`. -/
def squeezeSpaces (l : List Char) : List Char := squeezeSpAux l false

/-- The whitespace clean-up applied to every content section
(`chunk_structured_text` lines 113–114). -/
def cleanContent (l : List Char) : List Char := squeezeSpaces (squeezeNewlines l)

/-- Python `s[:k]` for an `int` bound `k` (negative bounds count from the
end, clamped at 0). -/
def pySliceTo (l : List Char) (k : Int) : List Char :=
  if 0 ≤ k then l.take k.toNat else l.take (l.length - (-k).toNat)

/-- Python `s[k:]` for an `int` bound `k`. -/
def pySliceFrom (l : List Char) (k : Int) : List Char :=
  if 0 ≤ k then l.drop k.toNat else l.drop (l.length - (-k).toNat)

/-- Descending terminator scan with `Int` positions, as in
`range(min(remaining_space, len(content) - 1), max(0, remaining_space - 200), -1)`.
`steps` is the number of scanned positions; the positions reached are
always ≥ 1 in the source (`lo = max 0 _`), so `Int.toNat` is exact. -/
def scanBackI (text : List Char) : Nat → Int → Option Int
  | 0, _ => none
  | s + 1, i => if isTerm (text.getD i.toNat 'x') then some i else scanBackI text s (i - 1)

/-- A parsed section of a structured document: plain content, or a heading
event with its numeric level and title (`chunk_structured_text` lines 51–76). -/
inductive Section where
  | content (text : List Char)
  | heading (level : Nat) (text : List Char)
deriving DecidableEq, Repr

/-- Python `list.index` (first position of an equal element; total here,
returning the length when absent — the source only calls it on members). -/
def pyIndex : List Section → Section → Nat
  | [], _ => 0
  | s :: rest, x => if s = x then 0 else pyIndex rest x + 1

/-- Python `list.insert(pos, x)`. -/
def pyInsert (l : List Section) (n : Nat) (x : Section) : List Section :=
  l.take n ++ x :: l.drop n

/-- `" > ".join(...)` over heading titles. -/
def joinSep (sep : List Char) : List (List Char) → List Char
  | [] => []
  | [x] => x
  | x :: xs => x ++ sep ++ joinSep sep xs

/-- `f"[Section: {heading_prefix}]\n"` where `heading_prefix` is the
`" > "`-joined titles of the heading-context stack. -/
def sectionLabel (hctx : List (Nat × List Char)) : List Char :=
  ("[Section: ").data ++ joinSep (" > ").data (hctx.map Prod.snd) ++ ("]\n").data

/-- The loop state of `chunk_structured_text` lines 83–161: the (mutable)
section list, the iterator position, the finished chunks, the chunk being
built and the heading-context stack. -/
structure SState where
  sections : List Section
  idx : Nat
  chunks : List (List Char)
  currentChunk : List Char
  headingContext : List (Nat × List Char)
deriving DecidableEq, Repr

/-- One iteration of the `for section in sections` loop of
`chunk_structured_text` (lines 86–161), processing `sec = sections[idx]`.
Python's list iterator walks the *current* list by position, so an
insertion into `sections` is visible to later iterations. -/
def structStep (st : SState) (sec : Section) : SState :=
  match sec with
  | .heading lvl txt =>
    -- lines 87–107
    let stripped := pyStrip st.currentChunk
    let chunks := if stripped ≠ [] ∧ stripped.length > 50 then st.chunks ++ [stripped] else st.chunks
    let hctx := st.headingContext.filter (fun h => decide (h.1 < lvl)) ++ [(lvl, txt)]
    let cc := if hctx ≠ [] then sectionLabel hctx
              else ("[Section: ").data ++ txt ++ ("]\n").data
    { st with idx := st.idx + 1, chunks := chunks, currentChunk := cc, headingContext := hctx }
  | .content raw =>
    -- lines 108–161
    let content := cleanContent raw
    if st.currentChunk.length + content.length > 750 then
      -- `len(current_chunk) + len(content) > CHUNK_SIZE * 1.5`
      let stripped := pyStrip st.currentChunk
      let chunks := if stripped ≠ [] ∧ stripped.length > 100 then st.chunks ++ [stripped] else st.chunks
      if st.headingContext ≠ [] then
        let label := sectionLabel st.headingContext
        let remainingSpace : Int := (CHUNK_SIZE : Int) - (label.length : Int)
        if (content.length : Int) > remainingSpace then
          let found := scanBackI content
            (min remainingSpace ((content.length : Int) - 1) - max 0 (remainingSpace - 200)).toNat
            (min remainingSpace ((content.length : Int) - 1))
          let splitPos : Int :=
            match found with
            | some i => i + 1
            | none => remainingSpace
          let cc := label ++ pyStrip (pySliceTo content splitPos)
          let sections :=
            if splitPos < (content.length : Int) then
              pyInsert st.sections (pyIndex st.sections (.content raw) + 1)
                (.content (pyStrip (pySliceFrom content splitPos)))
            else st.sections
          { st with sections := sections, idx := st.idx + 1, chunks := chunks, currentChunk := cc }
        else
          { st with idx := st.idx + 1, chunks := chunks, currentChunk := label ++ content }
      else
        if content.length > CHUNK_SIZE then
          let found := scanBack content (CHUNK_SIZE - max 0 (CHUNK_SIZE - 200)) CHUNK_SIZE
          let splitPos : Nat :=
            match found with
            | some i => i + 1
            | none => CHUNK_SIZE
          let cc := pyStrip (content.take splitPos)
          let sections :=
            if splitPos < content.length then
              pyInsert st.sections (pyIndex st.sections (.content raw) + 1)
                (.content (pyStrip (content.drop splitPos)))
            else st.sections
          { st with sections := sections, idx := st.idx + 1, chunks := chunks, currentChunk := cc }
        else
          { st with idx := st.idx + 1, chunks := chunks, currentChunk := content }
    else
      -- lines 159–161: content fits, append it
      { st with idx := st.idx + 1, currentChunk := st.currentChunk ++ content ++ ['\n'] }

/-- The `for section in sections` loop run to completion, with fuel.
`none` means the fuel was exhausted before the iterator reached the end
of the (possibly growing) list. -/
def structLoop : Nat → SState → Option SState
  | 0, _ => none
  | fuel + 1, st =>
    match st.sections.get? st.idx with
    | some sec => structLoop fuel (structStep st sec)
    | none => some st

/-! #### Parsing the heading markers
(`re.finditer(r'\[HEADING_LEVEL_(\d+)\](.*?)\[/HEADING_LEVEL_\1\]', text)`,
no `re.DOTALL`, so `(.*?)` cannot cross a newline). -/

/-- Decimal digit test (`\d` on the inputs considered). -/
def isDigitC (c : Char) : Bool := '0' ≤ c && c ≤ '9'

/-- `int(...)` on a digit string. -/
def digitsToNat (ds : List Char) : Nat :=
  ds.foldl (fun acc c => acc * 10 + (c.toNat - 48)) 0

/-- Lazy `(.*?)` search: advance the absolute position `j` until the
close tag matches there, failing at a newline or the end of the text.
`suff` is the running suffix `text.drop j`, carried along so that the
scan is linear. -/
def matchCloseScan (closeTag : List Char) : Nat → Nat → List Char → Option Nat
  | 0, _, _ => none
  | fuel + 1, j, suff =>
    if closeTag.isPrefixOf suff then some j
    else
      match suff with
      | [] => none
      | c :: rest => if c = '\n' then none else matchCloseScan closeTag fuel (j + 1) rest

/-- Try to match the heading regex at position `p` (with
`suff = text.drop p`); on success return `(match end, level, heading
text)`: greedy non-empty `\d+` followed by `]`, then the lazy body up to
the back-referenced close tag. -/
def tryMatchAt (text : List Char) (p : Nat) (suff : List Char) :
    Option (Nat × Nat × List Char) :=
  let openTag := ("[HEADING_LEVEL_").data
  if openTag.isPrefixOf suff then
    let afterOpen := suff.drop openTag.length
    let digits := afterOpen.takeWhile isDigitC
    if digits ≠ [] ∧ afterOpen.getD digits.length 'x' = ']' then
      let contentStart := p + openTag.length + digits.length + 1
      let contentSuff := afterOpen.drop (digits.length + 1)
      let closeTag := ("[/HEADING_LEVEL_").data ++ digits ++ ("]").data
      match matchCloseScan closeTag (text.length + 1) contentStart contentSuff with
      | some j => some (j + closeTag.length, digitsToNat digits,
          contentSuff.take (j - contentStart))
      | none => none
    else none
  else none

/-- `re.finditer` over the whole text: leftmost matches, resuming after
each match end.  Returns `(start, end, level, heading text)` tuples;
`suff` is the running suffix `text.drop p`. -/
def scanText (text : List Char) : Nat → Nat → List Char → List (Nat × Nat × Nat × List Char)
  | 0, _, _ => []
  | fuel + 1, p, suff =>
    match tryMatchAt text p suff with
    | some (e, lvl, h) => (p, e, lvl, h) :: scanText text fuel e (suff.drop (e - p))
    | none =>
      match suff with
      | [] => []
      | _ :: rest => scanText text fuel (p + 1) rest

/-- Build the section list of `chunk_structured_text` lines 51–76 from the
regex matches: stripped non-empty content runs interleaved with heading
events, plus the stripped trailing content. -/
def parseSections (text : List Char) : List Section :=
  let ms := scanText text (text.length + 1) 0 text
  let step := fun (acc : List Section × Nat) (m : Nat × Nat × Nat × List Char) =>
    let p := m.1
    let e := m.2.1
    let lvl := m.2.2.1
    let h := m.2.2.2
    let acc1 := if p > acc.2 then
        let prev := pyStrip ((text.drop acc.2).take (p - acc.2))
        if prev ≠ [] then acc.1 ++ [.content prev] else acc.1
      else acc.1
    (acc1 ++ [.heading lvl (pyStrip h)], e)
  let r := ms.foldl step ([], 0)
  if r.2 < text.length then
    let rem := pyStrip (text.drop r.2)
    if rem ≠ [] then r.1 ++ [.content rem] else r.1
  else r.1

/-- `chunk_structured_text` from `rag/chunking.py` (fuel-indexed: `none`
when the section loop does not finish within `fuel` iterations). -/
def chunk_structured_text (fuel : Nat) (text : List Char) : Option (List (List Char)) :=
  let sections := parseSections text
  if sections = [] then some (chunk_simple_text text)
  else
    match structLoop fuel { sections := sections, idx := 0, chunks := [],
                            currentChunk := [], headingContext := [] } with
    | none => none
    | some st =>
      -- lines 163–180
      let stripped := pyStrip st.currentChunk
      let chunks := if stripped ≠ [] ∧ stripped.length > 50 then st.chunks ++ [stripped] else st.chunks
      let finalChunks := (chunks.map (fun c =>
        if c.length ≤ CHUNK_SIZE then [c] else split_large_chunk c)).flatten
      let finalChunks := finalChunks.filter (fun c => pyStrip c ≠ [] ∧ (pyStrip c).length > 50)
      some (if finalChunks ≠ [] then finalChunks else chunk_simple_text text)

/-! ### Language detection (`rag/utils/language_utils.py`) -/

/-- The character class of the compiled `persian_pattern`
(`[؀-ۿݐ-ݿࢠ-ࣿﭐ-﷿ﹰ-﻿]`). -/
def inPersianRange (c : Char) : Bool :=
  (0x0600 ≤ c.toNat && c.toNat ≤ 0x06FF) || (0x0750 ≤ c.toNat && c.toNat ≤ 0x077F) ||
  (0x08A0 ≤ c.toNat && c.toNat ≤ 0x08FF) || (0xFB50 ≤ c.toNat && c.toNat ≤ 0xFDFF) ||
  (0xFE70 ≤ c.toNat && c.toNat ≤ 0xFEFF)

/-- The character class of the compiled `arabic_pattern` — the identical
regular expression as `persian_pattern` (`language_utils.py` lines 14–15). -/
def inArabicRange (c : Char) : Bool :=
  (0x0600 ≤ c.toNat && c.toNat ≤ 0x06FF) || (0x0750 ≤ c.toNat && c.toNat ≤ 0x077F) ||
  (0x08A0 ≤ c.toNat && c.toNat ≤ 0x08FF) || (0xFB50 ≤ c.toNat && c.toNat ≤ 0xFDFF) ||
  (0xFE70 ≤ c.toNat && c.toNat ≤ 0xFEFF)

/-- The character class of `english_pattern` (`[a-zA-Z]`). -/
def isEnglishLetter (c : Char) : Bool :=
  ('a' ≤ c && c ≤ 'z') || ('A' ≤ c && c ≤ 'Z')

/-- `LanguageDetector.detect_language`.  The `findall` counts become list
filters; the float ratio comparisons against `0.3` are modelled as exact
rational comparisons (no input of interest is close enough to the
threshold for double rounding to matter). -/
def detect_language (s : List Char) : String :=
  if s = [] ∨ pyStrip s = [] then "en"
  else
    let p := (s.filter inPersianRange).length
    let a := (s.filter inArabicRange).length
    let e := (s.filter isEnglishLetter).length
    let total := p + a + e
    if total = 0 then "en"
    else if (3 : ℚ) / 10 < (p : ℚ) / (total : ℚ) then "fa"
    else if (3 : ℚ) / 10 < (a : ℚ) / (total : ℚ) then "ar"
    else if (3 : ℚ) / 10 < (e : ℚ) / (total : ℚ) then "en"
    else "mixed"

/-- `LanguageDetector.is_persian_text`: a single Persian-range character
suffices. -/
def is_persian_text (s : List Char) : Bool := s.any inPersianRange

/-- The character map applied by `normalize_persian_text`: Persian-Indic
digits to ASCII digits, Persian comma/semicolon/question mark to ASCII.
The sequential `str.replace` calls of the source touch disjoint single
characters, so they equal one simultaneous character map. -/
def normalizeChar (c : Char) : Char :=
  if 0x06F0 ≤ c.toNat && c.toNat ≤ 0x06F9 then Char.ofNat (c.toNat - 0x06F0 + 48)
  else if c = Char.ofNat 0x060C then ','
  else if c = Char.ofNat 0x061B then ';'
  else if c = Char.ofNat 0x061F then '?'
  else c

/-- `LanguageDetector.normalize_persian_text`. -/
def normalize_persian_text (t : List Char) : List Char :=
  if is_persian_text t then pyStrip (t.map normalizeChar) else t

/-- `'[HEADING_LEVEL_' in text`. -/
def containsSub (l sub : List Char) : Bool :=
  (List.range (l.length + 1)).any (fun i => sub.isPrefixOf (l.drop i))

/-- `chunk_text` from `rag/chunking.py` (the dispatcher): normalize
Persian text, then choose structured or simple segmentation. -/
def chunk_text (fuel : Nat) (text : List Char) (preserveStructure : Bool) :
    Option (List (List Char)) :=
  let text := if is_persian_text text then normalize_persian_text text else text
  let hasStructure := preserveStructure && containsSub text ("[HEADING_LEVEL_").data
  if hasStructure then chunk_structured_text fuel text
  else some (chunk_simple_text text)

/-! ### Embedding provider (`rag/embedding.py`) -/

/-- The two embedding providers of `EmbeddingModel`. -/
inductive Provider where
  | sentenceTransformers
  | ollama
deriving DecidableEq, Repr

/-- The provider state of an `EmbeddingModel` after `__init__`:
`modelLoaded` models `self.model is not None`. -/
structure EmbCfg where
  provider : Provider
  modelLoaded : Bool
deriving DecidableEq, Repr

/-- `EmbeddingModel.encode_text` (lines 57–91).  The backend call (the
sentence-transformers `model.encode` or the Ollama `client.embeddings`)
is external; its outcome is passed in as an `Except` value, `.error`
standing for a raised exception caught by the `except` clause. -/
def encode_text (cfg : EmbCfg) (backend : Except String (List Float)) : List Float :=
  if cfg.provider = Provider.sentenceTransformers ∧ cfg.modelLoaded then
    match backend with
    | .ok v => v
    | .error _ => List.replicate 384 0.0
  else
    match backend with
    | .ok v => v
    | .error _ => List.replicate 384 0.0

/-! ### Vector store (`rag/vectorstore.py`) -/

/-- Decimal rendering of a machine integer, as Python's f-string does
(`str(n)`): `natReprRev` produces the digits little-endian with a fuel
bound (`n` itself suffices since `n / 10 < n` for `n ≥ 1`). -/
def natDigitsRev : Nat → Nat → List Nat
  | 0, _ => []
  | fuel + 1, n => if n = 0 then [] else n % 10 :: natDigitsRev fuel (n / 10)

/-- A decimal digit as a character. -/
def digitToChar (d : Nat) : Char :=
  match d with
  | 0 => '0' | 1 => '1' | 2 => '2' | 3 => '3' | 4 => '4'
  | 5 => '5' | 6 => '6' | 7 => '7' | 8 => '8' | 9 => '9'
  | _ => '*'

/-- Python `str(n)` for a natural number. -/
def natRepr (n : Nat) : List Char :=
  if n = 0 then ['0'] else ((natDigitsRev n n).map digitToChar).reverse

/-- The chunk identifier `f"doc_{base_id}_{i}"` built by
`VectorStore.add_documents` (lines 44–46), where `t` is
`int(time.time())` (whole seconds) and `i` the in-batch offset. -/
def mkId (t i : Nat) : List Char :=
  ("doc_").data ++ natRepr t ++ ['_'] ++ natRepr i

/-- The id list `[f"doc_{base_id}_{i}" for i in range(len(chunks))]`. -/
def make_ids (t n : Nat) : List (List Char) :=
  (List.range n).map (mkId t)

/-- `VectorStore.add_documents`: the persistent collection is modelled as
a list of `(id, document)` pairs to which the ChromaDB `collection.add`
call appends all submitted pairs (embeddings omitted — they play no role
in the identifier claim). -/
def add_documents (store : List (List Char × List Char)) (t : Nat)
    (chunks : List (List Char)) : List (List Char × List Char) :=
  store ++ (make_ids t chunks.length).zip chunks

/-! ### Retriever (`rag/retriever.py`) -/

/-- `DocumentRetriever.retrieve_relevant_documents` (lines 29–34).  The
body of the `try` block — embedding the query, the ChromaDB
`collection.query` call and the `results.get("documents", [[]])[0]`
extraction — is external; its outcome is passed in as an `Except` value,
`.error` standing for any raised exception, which the `except` clause
turns into the empty list. -/
def retrieve_relevant_documents (outcome : Except String (List (List Char))) :
    List (List Char) :=
  match outcome with
  | .ok docs => docs
  | .error _ => []

/-! ### Reference renderings of spec sentences (for refinement claims) -/

/-- The language classifier as the spec sentence words it: the ratio of a
script is taken "among all classified characters (Persian/Arabic-range
code points plus Latin letters)", i.e. with every classified character
counted once, the scripts tested in the source's order. -/
def detectLanguageClaim (s : List Char) : String :=
  if s = [] ∨ pyStrip s = [] then "en"
  else
    let p := (s.filter inPersianRange).length
    let a := (s.filter inArabicRange).length
    let e := (s.filter isEnglishLetter).length
    let total := p + e
    if total = 0 then "en"
    else if (3 : ℚ) / 10 < (p : ℚ) / (total : ℚ) then "fa"
    else if (3 : ℚ) / 10 < (a : ℚ) / (total : ℚ) then "ar"
    else if (3 : ℚ) / 10 < (e : ℚ) / (total : ℚ) then "en"
    else "mixed"

/-- The classifier the code actually implements, stated with integer
arithmetic: the denominator `p + a + e` counts every Persian/Arabic-range
character twice (once under each of the two identical patterns). -/
def detectLangDescr (s : List Char) : String :=
  if s = [] ∨ pyStrip s = [] then "en"
  else
    let p := (s.filter inPersianRange).length
    let a := (s.filter inArabicRange).length
    let e := (s.filter isEnglishLetter).length
    let total := p + a + e
    if total = 0 then "en"
    else if 3 * total < 10 * p then "fa"
    else if 3 * total < 10 * a then "ar"
    else if 3 * total < 10 * e then "en"
    else "mixed"

/-! ## Theorems -/

/-! ### C5: zero-vector fallback dimensionality -/

/-- C5 counterexample: with the Ollama provider a failing encode call
returns a zero vector of 384 entries, not the 768 the claim states. -/
theorem C5_counterexample :
    (encode_text ⟨Provider.ollama, false⟩ (Except.error ("connection refused"))).length = 384 ∧
    (384 : Nat) ≠ 768 := by
  exact ⟨rfl, by decide⟩

/-- C5 (amended): on a backend error, `encode_text` returns a zero vector
of 384 entries for **both** providers — the Ollama branch also uses the
384-entry fallback. -/
theorem C5_amended :
    ∀ (cfg : EmbCfg) (e : String),
      encode_text cfg (Except.error e) = List.replicate 384 0.0 := by
  intro cfg e
  unfold encode_text
  split <;> rfl

/-! ### C9: retriever never propagates -/

/-- C9: `retrieve_relevant_documents` maps any raised backend exception to
the empty list, and a query whose successful outcomes can only carry an
empty document list (as on an empty collection) also yields the empty
list — never an error. -/
theorem C9_thm :
    (∀ e : String, retrieve_relevant_documents (Except.error e) = []) ∧
    (∀ o : Except String (List (List Char)),
      (∀ docs, o = Except.ok docs → docs = []) →
      retrieve_relevant_documents o = []) := by
  refine ⟨fun _ => rfl, fun o h => ?_⟩
  cases o with
  | ok docs => rw [retrieve_relevant_documents, h docs rfl]
  | error e => rfl

/-- C9 witness: a concrete failing backend outcome yields `[]`. -/
theorem C9_witness :
    retrieve_relevant_documents (Except.error ("chromadb unreachable")) = [] :=
  C9_thm.2 (Except.error ("chromadb unreachable")) (fun _ h => by cases h)

/-! ### C6 and C10: language classification -/

/-- Cross-multiplied form of the float threshold test, valid whenever the
denominator is non-zero. -/
theorem ratio_iff (k total : Nat) (h : total ≠ 0) :
    ((3 : ℚ) / 10 < (k : ℚ) / (total : ℚ)) ↔ 3 * total < 10 * k := by
  have hpos : (0 : ℚ) < (total : ℚ) := by exact_mod_cast Nat.pos_of_ne_zero h
  rw [div_lt_div_iff₀ (by norm_num) hpos, mul_comm (k : ℚ) 10]
  norm_cast

/-- The rational ratio tests of `detect_language` and the integer tests of
`detectLangDescr` agree everywhere. -/
theorem detect_language_eq_descr :
    ∀ s : List Char, detect_language s = detectLangDescr s := by
  intro s
  simp only [detect_language, detectLangDescr]
  by_cases h0 : s = [] ∨ pyStrip s = []
  · rw [if_pos h0, if_pos h0]
  · rw [if_neg h0, if_neg h0]
    by_cases ht : (s.filter inPersianRange).length + (s.filter inArabicRange).length +
        (s.filter isEnglishLetter).length = 0
    · rw [if_pos ht, if_pos ht]
    · rw [if_neg ht, if_neg ht]
      simp only [ratio_iff _ _ ht]

/-- C10: `detect_language` never returns `"ar"`: the Arabic pattern is the
identical regular expression as the Persian one, so the two counts agree,
and the Persian test is evaluated first. -/
theorem C10_thm :
    ∀ s : List Char,
      detect_language s = "en" ∨ detect_language s = "fa" ∨ detect_language s = "mixed" := by
  intro s
  have harab : inArabicRange = inPersianRange := rfl
  rw [detect_language_eq_descr]
  simp only [detectLangDescr, harab]
  split_ifs <;> simp_all

/-- The discriminating input for C6: two Arabic-letter characters and the
Latin letters `abc`. -/
def exC6 : List Char := [Char.ofNat 0x0627, Char.ofNat 0x0627, ' ', 'a', 'b', 'c']

/-- C6 counterexample: on `exC6` the claim's single-count ratio makes the
Persian share 2/5 > 0.3, so the claim, as stated, predicts `"fa"`; the
code's denominator counts the two Persian/Arabic characters twice
(ratio 2/7 ≤ 0.3) and it returns `"en"`. -/
theorem C6_counterexample :
    detect_language exC6 = "en" ∧ detectLanguageClaim exC6 = "fa" := by
  constructor
  · rw [detect_language_eq_descr]; decide
  · have hp : (exC6.filter inPersianRange).length = 2 := rfl
    have ha : (exC6.filter inArabicRange).length = 2 := rfl
    have he : (exC6.filter isEnglishLetter).length = 3 := rfl
    have h0 : ¬(exC6 = [] ∨ pyStrip exC6 = []) := by decide
    simp only [detectLanguageClaim, hp, ha, he, if_neg h0]
    norm_num

/-- C6 (amended): `detect_language` implements the threshold test with the
double-counting denominator `persian + arabic + english` (each
Persian/Arabic-range character counted twice, once under each of the two
identical patterns); the stated examples hold: `"Hello world"` and the
empty string classify as `"en"`. -/
theorem C6_amended :
    (∀ s : List Char, detect_language s = detectLangDescr s) ∧
    detect_language (("Hello world").data) = "en" ∧
    detect_language [] = "en" := by
  refine ⟨detect_language_eq_descr, ?_, ?_⟩
  · rw [detect_language_eq_descr]; decide
  · rw [detect_language_eq_descr]; decide

/-! ### C7: chunk identifiers -/

/-- Reading a decimal digit character back. -/
def charToDigit (c : Char) : Nat :=
  match c with
  | '0' => 0 | '1' => 1 | '2' => 2 | '3' => 3 | '4' => 4
  | '5' => 5 | '6' => 6 | '7' => 7 | '8' => 8 | '9' => 9
  | _ => 10

/-- Recomposing a little-endian digit list. -/
def ofDigitsRev (l : List Nat) : Nat := l.foldr (fun d acc => d + 10 * acc) 0

theorem natDigitsRev_lt_ten :
    ∀ fuel n d, d ∈ natDigitsRev fuel n → d < 10 := by
  intro fuel
  induction fuel with
  | zero => intro n d h; cases h
  | succ f ih =>
    intro n d h
    simp only [natDigitsRev] at h
    by_cases hn : n = 0
    · rw [if_pos hn] at h; cases h
    · rw [if_neg hn] at h
      rcases List.mem_cons.mp h with h1 | h1
      · exact h1 ▸ Nat.mod_lt n (by norm_num)
      · exact ih (n / 10) d h1

theorem ofDigitsRev_natDigitsRev :
    ∀ fuel n, n ≤ fuel → ofDigitsRev (natDigitsRev fuel n) = n := by
  intro fuel
  induction fuel with
  | zero => intro n h; interval_cases n; rfl
  | succ f ih =>
    intro n h
    by_cases hn : n = 0
    · subst hn; rfl
    · have h10 : n / 10 ≤ f := by
        have := Nat.div_lt_self (Nat.pos_of_ne_zero hn) (by norm_num : (1:Nat) < 10)
        omega
      simp only [natDigitsRev, if_neg hn, ofDigitsRev, List.foldr_cons]
      have := ih (n / 10) h10
      simp only [ofDigitsRev] at this
      rw [this, Nat.mod_add_div]

theorem charToDigit_digitToChar : ∀ d, d < 10 → charToDigit (digitToChar d) = d := by
  decide

theorem map_digitToChar_id (l : List Nat) (hl : ∀ d ∈ l, d < 10) :
    (l.map digitToChar).map charToDigit = l := by
  rw [List.map_map]
  have h : l.map (charToDigit ∘ digitToChar) = l.map id :=
    List.map_congr_left (fun d hd => charToDigit_digitToChar d (hl d hd))
  rw [h, List.map_id]

theorem map_digitToChar_inj :
    ∀ l1 l2 : List Nat, (∀ d ∈ l1, d < 10) → (∀ d ∈ l2, d < 10) →
      l1.map digitToChar = l2.map digitToChar → l1 = l2 := by
  intro l1 l2 h1 h2 h
  have hc := congrArg (List.map charToDigit) h
  rwa [map_digitToChar_id l1 h1, map_digitToChar_id l2 h2] at hc

theorem natRepr_inj : Function.Injective natRepr := by
  intro a b h
  unfold natRepr at h
  by_cases ha : a = 0 <;> by_cases hb : b = 0
  · omega
  · rw [if_pos ha, if_neg hb] at h
    have hd := map_digitToChar_inj [0] (natDigitsRev b b)
      (by intro d hd; simp at hd; omega)
      (fun d hd => natDigitsRev_lt_ten b b d hd)
      (by simpa using congrArg List.reverse h)
    have := ofDigitsRev_natDigitsRev b b le_rfl
    rw [← hd] at this
    simp [ofDigitsRev] at this
    omega
  · rw [if_neg ha, if_pos hb] at h
    have hd := map_digitToChar_inj (natDigitsRev a a) [0]
      (fun d hd => natDigitsRev_lt_ten a a d hd)
      (by intro d hd; simp at hd; omega)
      (by simpa using congrArg List.reverse h)
    have := ofDigitsRev_natDigitsRev a a le_rfl
    rw [hd] at this
    simp [ofDigitsRev] at this
    omega
  · rw [if_neg ha, if_neg hb] at h
    have hd := map_digitToChar_inj (natDigitsRev a a) (natDigitsRev b b)
      (fun d hd => natDigitsRev_lt_ten a a d hd)
      (fun d hd => natDigitsRev_lt_ten b b d hd)
      (by simpa using congrArg List.reverse h)
    have h1 := ofDigitsRev_natDigitsRev a a le_rfl
    have h2 := ofDigitsRev_natDigitsRev b b le_rfl
    rw [hd] at h1
    omega

theorem underscore_not_mem_natRepr : ∀ n, '_' ∉ natRepr n := by
  intro n
  unfold natRepr
  by_cases hn : n = 0
  · rw [if_pos hn]; decide
  · rw [if_neg hn]
    intro hmem
    rw [List.mem_reverse, List.mem_map] at hmem
    obtain ⟨d, hd, hdc⟩ := hmem
    have := natDigitsRev_lt_ten n n d hd
    interval_cases d <;> simp [digitToChar] at hdc

theorem append_mark_inj :
    ∀ (a : List Char) {b c d : List Char}, '_' ∉ a → '_' ∉ c →
      a ++ '_' :: b = c ++ '_' :: d → a = c ∧ b = d := by
  intro a
  induction a with
  | nil =>
    intro b c d _ hc h
    cases c with
    | nil => simpa using h
    | cons y ys =>
      simp only [List.nil_append, List.cons_append, List.cons.injEq] at h
      exact absurd (h.1 ▸ List.mem_cons_self y ys) (h.1 ▸ hc)
  | cons x xs ih =>
    intro b c d ha hc h
    cases c with
    | nil =>
      simp only [List.cons_append, List.nil_append, List.cons.injEq] at h
      exact absurd (h.1 ▸ List.mem_cons_self x xs) (h.1 ▸ ha)
    | cons y ys =>
      simp only [List.cons_append, List.cons.injEq] at h
      have := ih (List.not_mem_of_not_mem_cons ha) (List.not_mem_of_not_mem_cons hc) h.2
      exact ⟨by rw [h.1, this.1], this.2⟩

theorem mkId_inj : ∀ t1 i1 t2 i2, mkId t1 i1 = mkId t2 i2 → t1 = t2 ∧ i1 = i2 := by
  intro t1 i1 t2 i2 h
  unfold mkId at h
  rw [List.append_assoc, List.append_assoc, List.append_assoc, List.append_assoc] at h
  have h2 := List.append_cancel_left h
  rw [List.singleton_append, List.singleton_append] at h2
  have h3 := append_mark_inj (natRepr t1) (underscore_not_mem_natRepr t1)
    (underscore_not_mem_natRepr t2) h2
  exact ⟨natRepr_inj h3.1, natRepr_inj h3.2⟩

/-- C7 counterexample: two `add_documents` calls that fall in the same
whole second (`int(time.time())` equal) assign the *same* identifier
`doc_5_0` to different chunks — identifiers are not unique across calls. -/
theorem C7_counterexample :
    (add_documents (add_documents [] 5 [("first chunk").data]) 5
        [("second chunk").data]).map Prod.fst
      = [("doc_5_0").data, ("doc_5_0").data] ∧
    ¬ ((add_documents (add_documents [] 5 [("first chunk").data]) 5
        [("second chunk").data]).map Prod.fst).Nodup := by
  constructor
  · decide
  · decide

/-- C7 (amended): identifiers are unique **within** one call, and unique
across calls only when the whole-second timestamps differ; under the
append model of the store, each call grows the collection by
`len(chunks)`. -/
theorem C7_amended :
    (∀ t n, (make_ids t n).Nodup) ∧
    (∀ t1 t2 i1 i2, t1 ≠ t2 → mkId t1 i1 ≠ mkId t2 i2) ∧
    (∀ store t chunks,
      (add_documents store t chunks).length = store.length + chunks.length) := by
  refine ⟨fun t n => ?_, fun t1 t2 i1 i2 ht h => ht (mkId_inj t1 i1 t2 i2 h).1,
    fun store t chunks => ?_⟩
  · exact (List.nodup_range n).map (fun i j h => (mkId_inj t i t j h).2)
  · simp [add_documents, make_ids, List.length_zip]

/-- C7 witness: concrete instances of the amended claim. -/
theorem C7_witness :
    (make_ids 5 3).Nodup ∧ mkId 1 0 ≠ mkId 2 0 ∧
    (add_documents [] 5 [("a").data]).length = 0 + 1 :=
  ⟨C7_amended.1 5 3, C7_amended.2.1 1 2 0 0 (by decide),
   C7_amended.2.2 [] 5 [("a").data]⟩

/-! ### C2: chunk length bound -/

theorem pyStrip_length_le (l : List Char) : (pyStrip l).length ≤ l.length := by
  unfold pyStrip
  calc ((l.dropWhile pyIsSpace).reverse.dropWhile pyIsSpace).reverse.length
      = ((l.dropWhile pyIsSpace).reverse.dropWhile pyIsSpace).length := List.length_reverse _
    _ ≤ (l.dropWhile pyIsSpace).reverse.length := (List.dropWhile_sublist _).length_le
    _ = (l.dropWhile pyIsSpace).length := List.length_reverse _
    _ ≤ l.length := (List.dropWhile_sublist _).length_le

theorem scanBack_le (t : List Char) :
    ∀ s i j, scanBack t s i = some j → j ≤ i := by
  intro s
  induction s with
  | zero => intro i j h; cases h
  | succ n ih =>
    intro i j h
    simp only [scanBack] at h
    split at h
    · cases h; exact le_refl i
    · exact le_trans (ih (i - 1) j h) (Nat.sub_le i 1)

theorem mem_chunk_cons_bound {c chunk : List Char} {rest : List (List Char)}
    (hchunk : chunk.length ≤ CHUNK_SIZE + 1)
    (hrest : ∀ x ∈ rest, x.length ≤ CHUNK_SIZE + 1)
    (h : c ∈ (if chunk ≠ [] then chunk :: rest else rest)) :
    c.length ≤ CHUNK_SIZE + 1 := by
  split at h
  · rcases List.mem_cons.mp h with h1 | h1
    · exact h1 ▸ hchunk
    · exact hrest c h1
  · exact hrest c h

theorem strip_take_bound (t : List Char) (start e : Nat)
    (he : e ≤ start + CHUNK_SIZE + 1) :
    (pyStrip ((t.drop start).take (e - start))).length ≤ CHUNK_SIZE + 1 := by
  calc (pyStrip ((t.drop start).take (e - start))).length
      ≤ ((t.drop start).take (e - start)).length := pyStrip_length_le _
    _ ≤ e - start := List.length_take_le _ _
    _ ≤ CHUNK_SIZE + 1 := by omega

theorem slide_e_bound (t : List Char) (start : Nat) :
    (if min (start + CHUNK_SIZE) t.length < t.length then
        match scanBack t (min (start + CHUNK_SIZE) t.length - (start + (CHUNK_SIZE - 100)))
            (min (start + CHUNK_SIZE) t.length) with
        | some i => i + 1
        | none => min (start + CHUNK_SIZE) t.length
      else min (start + CHUNK_SIZE) t.length) ≤ start + CHUNK_SIZE + 1 := by
  have hmin : min (start + CHUNK_SIZE) t.length ≤ start + CHUNK_SIZE := min_le_left _ _
  split
  · split
    · next i hi =>
      have h2 : i ≤ start + CHUNK_SIZE := le_trans (scanBack_le t _ _ _ hi) hmin
      exact Nat.succ_le_succ h2
    · exact le_trans hmin (Nat.le_succ _)
  · exact le_trans hmin (Nat.le_succ _)

theorem slideLoop_length_le (t : List Char) :
    ∀ gas start c, c ∈ slideLoop t gas start → c.length ≤ CHUNK_SIZE + 1 := by
  intro gas
  induction gas with
  | zero => intro start c h; cases h
  | succ g ih =>
    intro start c h
    simp only [slideLoop] at h
    split at h
    · exact mem_chunk_cons_bound (strip_take_bound t start _ (slide_e_bound t start))
        (fun x hx => ih _ x hx) h
    · cases h

/-- C2 counterexample: on a 551-character text with a period right at
position 500, the backward scan starts one position *past* the window
(`range(end, ..., -1)` with `text[end]` being the next character), so the
first emitted chunk has 501 characters — more than `chunk_size`.  The
same loop body is `split_large_chunk`, with the same overshoot. -/
theorem C2_counterexample :
    ¬ (∀ c ∈ chunk_simple_text (List.replicate 500 'a' ++ ['.'] ++ List.replicate 50 'b'),
        c.length ≤ CHUNK_SIZE) ∧
    ¬ (∀ c ∈ split_large_chunk (List.replicate 500 'a' ++ ['.'] ++ List.replicate 50 'b'),
        c.length ≤ CHUNK_SIZE) := by
  constructor
  · decide
  · decide

/-- C2 (amended): every chunk emitted by `chunk_simple_text` and by
`split_large_chunk` has length at most `chunk_size + 1`; the sentence
boundary snap can overshoot the window by exactly one character (the
scan's first probe sits one past the window end). -/
theorem C2_amended :
    (∀ (t : List Char) (c : List Char),
      c ∈ chunk_simple_text t → c.length ≤ CHUNK_SIZE + 1) ∧
    (∀ (t : List Char) (c : List Char),
      c ∈ split_large_chunk t → c.length ≤ CHUNK_SIZE + 1) := by
  exact ⟨fun t c h => slideLoop_length_le t _ 0 c h,
    fun t c h => slideLoop_length_le t _ 0 c h⟩

/-- C2 witness: a concrete chunk of a concrete text satisfies the bound. -/
theorem C2_witness :
    (("abcd").data ∈ chunk_simple_text (("abcd").data)) ∧
    (("abcd").data).length ≤ CHUNK_SIZE + 1 :=
  ⟨by decide, C2_amended.1 (("abcd").data) (("abcd").data) (by decide)⟩

/-! ### C3: overlap reconstruction -/

/-- "Removing the overlap" of every chunk after the first: drop the
leading `CHUNK_OVERLAP` characters of each later chunk and concatenate. -/
def flattenTail (l : List (List Char)) : List Char :=
  (l.map (List.drop CHUNK_OVERLAP)).flatten

/-- Concatenation of a chunk list with overlaps removed. -/
def joinOverlap : List (List Char) → List Char
  | [] => []
  | c :: rest => c ++ flattenTail rest

theorem pyStrip_eq_self (l : List Char) (hw : ∀ c ∈ l, pyIsSpace c = false) :
    pyStrip l = l := by
  have hdw : ∀ (m : List Char), (∀ c ∈ m, pyIsSpace c = false) → m.dropWhile pyIsSpace = m := by
    intro m hm
    cases m with
    | nil => rfl
    | cons x xs => simp [List.dropWhile_cons, hm x (List.mem_cons_self x xs)]
  unfold pyStrip
  rw [hdw l hw, hdw l.reverse (fun c hc => hw c (List.mem_reverse.mp hc)), List.reverse_reverse]

theorem getD_mem_or (l : List Char) (i : Nat) (d : Char) :
    l.getD i d ∈ l ∨ l.getD i d = d := by
  induction l generalizing i with
  | nil => right; rfl
  | cons x xs ih =>
    cases i with
    | zero => left; exact List.mem_cons_self x xs
    | succ n =>
      rcases ih n with h | h
      · left; exact List.mem_cons_of_mem x h
      · right; exact h

theorem scanBack_none (t : List Char) (ht : ∀ c ∈ t, isTerm c = false) :
    ∀ s i, scanBack t s i = none := by
  intro s
  induction s with
  | zero => intro i; rfl
  | succ n ih =>
    intro i
    have hnt : isTerm (t.getD i 'x') = false := by
      rcases getD_mem_or t i 'x' with h | h
      · exact ht _ h
      · rw [h]; rfl
    simp only [scanBack, hnt]
    exact ih (i - 1)

theorem slideLoop_noTerm (t : List Char) (ht : ∀ c ∈ t, isTerm c = false)
    (hw : ∀ c ∈ t, pyIsSpace c = false) (g s : Nat) (hs : s < t.length) :
    slideLoop t (g + 1) s =
      (t.drop s).take (min (s + CHUNK_SIZE) t.length - s)
        :: slideLoop t g (s + (CHUNK_SIZE - CHUNK_OVERLAP)) := by
  simp only [slideLoop, if_pos hs]
  rw [scanBack_none t ht]
  have he : (if min (s + CHUNK_SIZE) t.length < t.length then
      (match (none : Option Nat) with
       | some i => i + 1
       | none => min (s + CHUNK_SIZE) t.length)
    else min (s + CHUNK_SIZE) t.length) = min (s + CHUNK_SIZE) t.length := by
    split <;> rfl
  rw [he]
  have hsub : ∀ c ∈ (t.drop s).take (min (s + CHUNK_SIZE) t.length - s), pyIsSpace c = false :=
    fun c hc => hw c (List.drop_subset s t (List.take_subset _ _ hc))
  rw [pyStrip_eq_self _ hsub]
  have hne : (t.drop s).take (min (s + CHUNK_SIZE) t.length - s) ≠ [] := by
    have h1 : s < min (s + CHUNK_SIZE) t.length :=
      lt_min (Nat.lt_add_of_pos_right (by decide)) hs
    have h2 : 0 < (t.drop s).length := by rw [List.length_drop]; omega
    have h3 : 0 < ((t.drop s).take (min (s + CHUNK_SIZE) t.length - s)).length := by
      rw [List.length_take]; exact lt_min (by omega) h2
    exact List.ne_nil_of_length_pos h3
  rw [if_pos hne]

theorem flattenTail_cons (c : List Char) (r : List (List Char)) :
    flattenTail (c :: r) = c.drop CHUNK_OVERLAP ++ flattenTail r := by
  simp [flattenTail]

theorem flattenTail_slideLoop (t : List Char) (ht : ∀ c ∈ t, isTerm c = false)
    (hw : ∀ c ∈ t, pyIsSpace c = false) :
    ∀ gas s, t.length ≤ s + (CHUNK_SIZE - CHUNK_OVERLAP) * gas →
      flattenTail (slideLoop t gas s) = t.drop (s + CHUNK_OVERLAP) := by
  have hcs : CHUNK_SIZE = 500 := rfl
  have hco : CHUNK_OVERLAP = 50 := rfl
  intro gas
  induction gas with
  | zero =>
    intro s hgas
    have hdrop : t.drop (s + CHUNK_OVERLAP) = [] :=
      List.drop_eq_nil_of_le (by omega)
    simp [slideLoop, flattenTail, hdrop]
  | succ g ih =>
    intro s hgas
    rw [Nat.mul_succ] at hgas
    by_cases hs : s < t.length
    · rw [slideLoop_noTerm t ht hw g s hs, flattenTail_cons]
      have hih := ih (s + (CHUNK_SIZE - CHUNK_OVERLAP)) (by omega)
      rw [hih]
      set m := min (s + CHUNK_SIZE) t.length with hm
      have hmle : m ≤ s + CHUNK_SIZE := min_le_left _ _
      have hmlen : m ≤ t.length := min_le_right _ _
      by_cases hb : s + CHUNK_OVERLAP ≤ t.length
      · -- the first window reaches past the overlap point
        have hmge : s + CHUNK_OVERLAP ≤ m := le_min (by omega) hb
        rw [List.drop_take, List.drop_drop]
        have h1 : s + (CHUNK_SIZE - CHUNK_OVERLAP) + CHUNK_OVERLAP = s + CHUNK_SIZE := by omega
        rw [h1]
        have h3 : t.drop (s + CHUNK_SIZE) = t.drop m := by
          by_cases hlen : t.length ≤ s + CHUNK_SIZE
          · have hm2 : m = t.length := by rw [hm]; omega
            rw [hm2, List.drop_length, List.drop_eq_nil_of_le hlen]
          · have hm2 : m = s + CHUNK_SIZE := by rw [hm]; omega
            rw [hm2]
        rw [h3]
        have h5 : t.drop m = (t.drop (s + CHUNK_OVERLAP)).drop (m - s - CHUNK_OVERLAP) := by
          rw [List.drop_drop]
          congr 1
          omega
        rw [h5, List.take_append_drop]
      · -- the text ends within the overlap distance: everything degenerates
        have h1 : (t.drop s).take (m - s) = t.drop s := by
          have hmeq : m = t.length := by rw [hm]; omega
          rw [hmeq]
          have : t.length - s = (t.drop s).length := by rw [List.length_drop]
          rw [this, List.take_length]
        rw [h1]
        have h2 : (t.drop s).drop CHUNK_OVERLAP = [] := by
          rw [List.drop_drop]
          exact List.drop_eq_nil_of_le (by omega)
        have h3 : t.drop (s + (CHUNK_SIZE - CHUNK_OVERLAP) + CHUNK_OVERLAP) = [] :=
          List.drop_eq_nil_of_le (by omega)
        have h4 : t.drop (s + CHUNK_OVERLAP) = [] :=
          List.drop_eq_nil_of_le (by omega)
        rw [h2, h3, h4]
        rfl
    · have hnil : slideLoop t (g + 1) s = [] := by
        simp [slideLoop, if_neg hs]
      have hdrop : t.drop (s + CHUNK_OVERLAP) = [] :=
        List.drop_eq_nil_of_le (by omega)
      simp [hnil, flattenTail, hdrop]

/-- C3 counterexample: with a period at position 402 of a 600-character
text, the sentence-boundary snap ends the first chunk at 403 while the
next window still starts at 450: the 47 `b`s in between appear in no
chunk (the text has 197 `b`s, the chunks together only 150), and the
overlap-removed concatenation does not reconstruct the text. -/
theorem C3_counterexample :
    joinOverlap (chunk_simple_text
        (List.replicate 402 'a' ++ ['.'] ++ List.replicate 197 'b'))
      ≠ List.replicate 402 'a' ++ ['.'] ++ List.replicate 197 'b' ∧
    ((chunk_simple_text (List.replicate 402 'a' ++ ['.'] ++ List.replicate 197 'b')).map
        (fun c => c.count 'b')).sum = 150 ∧
    (List.replicate 402 'a' ++ ['.'] ++ List.replicate 197 'b').count 'b' = 197 := by
  refine ⟨by decide, by decide, by decide⟩

/-- C3 (amended): the advance-by-`chunk_size - chunk_overlap` rule
guarantees reconstruction only when the sentence-boundary snap never
fires: for text free of sentence terminators (and of edge whitespace,
which trimming would drop), the chunks with overlaps removed concatenate
back to exactly the input.  When a snap cuts a window early, the
characters between the cut and the next start position are lost
(see the counterexample). -/
theorem C3_amended :
    ∀ t : List Char, (∀ c ∈ t, isTerm c = false) → (∀ c ∈ t, pyIsSpace c = false) →
      joinOverlap (chunk_simple_text t) = t := by
  intro t ht hw
  have hcs : CHUNK_SIZE = 500 := rfl
  have hco : CHUNK_OVERLAP = 50 := rfl
  by_cases h0 : t.length = 0
  · have : t = [] := List.length_eq_zero.mp h0
    subst this
    rfl
  · have hpos : 0 < t.length := Nat.pos_of_ne_zero h0
    unfold chunk_simple_text
    cases hgas : t.length + 1 with
    | zero => omega
    | succ g =>
      rw [slideLoop_noTerm t ht hw g 0 hpos]
      show (t.drop 0).take (min (0 + CHUNK_SIZE) t.length - 0) ++
          flattenTail (slideLoop t g (0 + (CHUNK_SIZE - CHUNK_OVERLAP))) = t
      have hmul : g ≤ (CHUNK_SIZE - CHUNK_OVERLAP) * g :=
        Nat.le_mul_of_pos_left g (by decide)
      rw [flattenTail_slideLoop t ht hw g (0 + (CHUNK_SIZE - CHUNK_OVERLAP)) (by omega)]
      simp only [List.drop_zero, Nat.zero_add, Nat.sub_zero]
      by_cases hlen : t.length ≤ CHUNK_SIZE
      · have hmeq : min CHUNK_SIZE t.length = t.length := by omega
        have hdrop : t.drop (CHUNK_SIZE - CHUNK_OVERLAP + CHUNK_OVERLAP) = [] :=
          List.drop_eq_nil_of_le (by omega)
        rw [hmeq, hdrop, List.append_nil, List.take_length]
      · have hmeq : min CHUNK_SIZE t.length = CHUNK_SIZE := by omega
        have harith : CHUNK_SIZE - CHUNK_OVERLAP + CHUNK_OVERLAP = CHUNK_SIZE := by omega
        rw [hmeq, harith, List.take_append_drop]

/-- C3 witness: a concrete terminator-free, whitespace-free text is
reconstructed from its chunks. -/
theorem C3_witness :
    joinOverlap (chunk_simple_text (("abc").data)) = ("abc").data :=
  C3_amended (("abc").data) (by decide) (by decide)

/-! ### C4: chunk-close thresholds -/

/-- The structured text behind the C4 counterexample: two level-1
headings with short content sections. -/
def exC4 : List Char :=
  ("[HEADING_LEVEL_1]Intro[/HEADING_LEVEL_1]").data ++ List.replicate 70 'x'
    ++ ("[HEADING_LEVEL_1]Next[/HEADING_LEVEL_1]").data ++ List.replicate 60 'y'

/-- The loop state of `chunk_structured_text` on `exC4` just before the
second heading is processed. -/
def stC4 : SState :=
  { sections := parseSections exC4, idx := 2, chunks := [],
    currentChunk := ("[Section: Intro]\n").data ++ List.replicate 70 'x' ++ ['\n'],
    headingContext := [(1, ("Intro").data)] }

/-- C4 counterexample: a chunk whose trimmed length is 87 — above the
50-character floor but *not* above 100 — is closed by a heading change
and kept, both at the step level and in the final output of
`chunk_structured_text`, contradicting the claim that a heading-change
close keeps the chunk only when its trimmed length exceeds 100. -/
theorem C4_counterexample :
    (structStep stC4 (Section.heading 1 (("Next").data))).chunks
      = [("[Section: Intro]\n").data ++ List.replicate 70 'x'] ∧
    (("[Section: Intro]\n").data ++ List.replicate 70 'x').length = 87 ∧
    chunk_structured_text 10 exC4
      = some [("[Section: Intro]\n").data ++ List.replicate 70 'x',
              ("[Section: Next]\n").data ++ List.replicate 60 'y'] := by
  refine ⟨by decide, by decide, by decide⟩

/-- C4 (amended): the thresholds are the other way round: a close caused
by a *heading change* keeps the chunk when its trimmed length exceeds 50,
and a close caused by the `chunk_size * 1.5` *size overflow* keeps it
when its trimmed length exceeds 100. -/
theorem C4_amended :
    (∀ (st : SState) (lvl : Nat) (txt : List Char),
      (structStep st (Section.heading lvl txt)).chunks =
        if pyStrip st.currentChunk ≠ [] ∧ (pyStrip st.currentChunk).length > 50
        then st.chunks ++ [pyStrip st.currentChunk] else st.chunks) ∧
    (∀ (st : SState) (raw : List Char),
      st.currentChunk.length + (cleanContent raw).length > 750 →
      (structStep st (Section.content raw)).chunks =
        if pyStrip st.currentChunk ≠ [] ∧ (pyStrip st.currentChunk).length > 100
        then st.chunks ++ [pyStrip st.currentChunk] else st.chunks) := by
  constructor
  · intro st lvl txt
    rfl
  · intro st raw h
    simp only [structStep]
    rw [if_pos h]
    split
    · split <;> rfl
    · split <;> rfl

/-- C4 witness: concrete instances of both close rules. -/
theorem C4_witness :
    (structStep stC4 (Section.heading 1 (("Next").data))).chunks
      = (if pyStrip stC4.currentChunk ≠ [] ∧ (pyStrip stC4.currentChunk).length > 50
         then stC4.chunks ++ [pyStrip stC4.currentChunk] else stC4.chunks) ∧
    (stC4.currentChunk.length + (cleanContent (List.replicate 700 'z')).length > 750) ∧
    (structStep stC4 (Section.content (List.replicate 700 'z'))).chunks
      = (if pyStrip stC4.currentChunk ≠ [] ∧ (pyStrip stC4.currentChunk).length > 100
         then stC4.chunks ++ [pyStrip stC4.currentChunk] else stC4.chunks) :=
  ⟨C4_amended.1 stC4 1 (("Next").data), by decide,
   C4_amended.2 stC4 (List.replicate 700 'z') (by decide)⟩

/-! ### C8: the heading-context stack -/

/-- C8: processing a heading replaces the stack by the retained entries of
strictly smaller level followed by the new heading; the new chunk is the
bracketed `" > "`-joined section label of that stack, and a following
content section that fits is appended after the label. -/
theorem C8_thm :
    (∀ (st : SState) (lvl : Nat) (txt : List Char),
      (structStep st (Section.heading lvl txt)).headingContext =
        st.headingContext.filter (fun h => decide (h.1 < lvl)) ++ [(lvl, txt)] ∧
      (structStep st (Section.heading lvl txt)).currentChunk =
        sectionLabel (st.headingContext.filter (fun h => decide (h.1 < lvl)) ++ [(lvl, txt)])) ∧
    (∀ (st : SState) (lvl : Nat) (txt raw : List Char),
      (sectionLabel (st.headingContext.filter (fun h => decide (h.1 < lvl))
          ++ [(lvl, txt)])).length + (cleanContent raw).length ≤ 750 →
      (structStep (structStep st (Section.heading lvl txt))
          (Section.content raw)).currentChunk =
        sectionLabel (st.headingContext.filter (fun h => decide (h.1 < lvl)) ++ [(lvl, txt)])
          ++ cleanContent raw ++ ['\n']) := by
  have hcc : ∀ (st : SState) (lvl : Nat) (txt : List Char),
      (structStep st (Section.heading lvl txt)).currentChunk =
        sectionLabel (st.headingContext.filter (fun h => decide (h.1 < lvl)) ++ [(lvl, txt)]) := by
    intro st lvl txt
    show (if st.headingContext.filter (fun h => decide (h.1 < lvl)) ++ [(lvl, txt)] ≠ []
          then sectionLabel (st.headingContext.filter (fun h => decide (h.1 < lvl)) ++ [(lvl, txt)])
          else ("[Section: ").data ++ txt ++ ("]\n").data) = _
    rw [if_pos (by simp)]
  refine ⟨fun st lvl txt => ⟨rfl, hcc st lvl txt⟩, fun st lvl txt raw h => ?_⟩
  have h1 := hcc st lvl txt
  set st1 := structStep st (Section.heading lvl txt) with hst1
  have hcond : ¬ (st1.currentChunk.length + (cleanContent raw).length > 750) := by
    rw [h1]; omega
  show (structStep st1 (Section.content raw)).currentChunk = _
  simp only [structStep]
  rw [if_neg hcond, h1]

/-- A concrete state for the C8 witness: the stack holds a level-1
heading `A` with a level-2 heading `B` below it. -/
def stC8 : SState := ⟨[], 0, [], [], [(1, ("A").data), (2, ("B").data)]⟩

/-- C8 witness: a concrete run — a level-2 heading `C` replaces the
level-2 sibling `B` on the stack but keeps the level-1 ancestor `A`, and
short content is appended after the section label. -/
theorem C8_witness :
    ((structStep stC8 (Section.heading 2 (("C").data))).headingContext
      = [(1, ("A").data), (2, ("C").data)] ∧
     (structStep stC8 (Section.heading 2 (("C").data))).currentChunk
      = sectionLabel [(1, ("A").data), (2, ("C").data)]) ∧
    (structStep (structStep stC8 (Section.heading 2 (("C").data)))
        (Section.content (("hello").data))).currentChunk
      = sectionLabel [(1, ("A").data), (2, ("C").data)] ++ ("hello").data ++ ['\n'] := by
  constructor
  · have h := C8_thm.1 stC8 2 (("C").data)
    exact ⟨by rw [h.1]; decide, by rw [h.2]; decide⟩
  · have h := C8_thm.2 stC8 2 (("C").data) (("hello").data) (by decide)
    rw [h]
    decide

/-! ### C1: non-termination of the structured section loop

When the `" > "`-joined heading prefix makes the section label exactly
`CHUNK_SIZE` characters long, `remaining_space` is `0`, the backward scan
is empty, `split_pos` stays `0`, and the *entire* content section is
re-queued unchanged right behind the iterator — which then finds the same
situation again, forever. -/

/-- A heading title of 488 characters: `len("[Section: ") + 488 + len("]\n")
= 500 = CHUNK_SIZE`. -/
def hC1 : List Char := List.replicate 488 'h'

/-- A content section of 300 characters (enough to overflow
`CHUNK_SIZE * 1.5` together with the 500-character label). -/
def cC1 : List Char := List.replicate 300 'a'

/-- The failing input for C1. -/
def exC1 : List Char :=
  ("[HEADING_LEVEL_1]").data ++ hC1 ++ ("[/HEADING_LEVEL_1]").data ++ cC1

/-- The 500-character section label produced from `hC1`. -/
def pfxC1 : List Char := ("[Section: ").data ++ hC1 ++ ("]\n").data

/-- The recurring loop state: the section list has grown to `n` copies of
the content section, the iterator sits on the `n`-th entry, and the
current chunk is the bare label. -/
def badState (n : Nat) (cs : List (List Char)) : SState :=
  ⟨Section.heading 1 hC1 :: List.replicate n (Section.content cC1), n, cs, pfxC1, [(1, hC1)]⟩

theorem parse_exC1 : parseSections exC1 = [Section.heading 1 hC1, Section.content cC1] := by
  decide

set_option maxHeartbeats 4000000 in
theorem step0_exC1 :
    structStep ⟨[Section.heading 1 hC1, Section.content cC1], 0, [], [], []⟩
      (Section.heading 1 hC1) = badState 1 [] := rfl

set_option maxHeartbeats 4000000 in
theorem structStep_badState (n : Nat) (cs : List (List Char)) :
    structStep (badState (n + 1) cs) (Section.content cC1) =
      badState (n + 2) (cs ++ [pyStrip pfxC1]) := rfl

theorem replicate_get? :
    ∀ n, (List.replicate (n + 1) (Section.content cC1)).get? n = some (Section.content cC1) := by
  intro n
  induction n with
  | zero => rfl
  | succ m ih =>
    rw [List.replicate_succ, List.get?_cons_succ]
    exact ih

theorem badState_get? (n : Nat) (cs : List (List Char)) :
    (badState (n + 1) cs).sections.get? (n + 1) = some (Section.content cC1) := by
  show (Section.heading 1 hC1 :: List.replicate (n + 1) (Section.content cC1)).get? (n + 1) = _
  rw [List.get?_cons_succ]
  exact replicate_get? n

theorem structLoop_badState_stuck :
    ∀ fuel n cs, structLoop fuel (badState (n + 1) cs) = none := by
  intro fuel
  induction fuel with
  | zero => intro n cs; rfl
  | succ f ih =>
    intro n cs
    show structLoop (f + 1) (badState (n + 1) cs) = none
    simp only [structLoop]
    rw [show (badState (n + 1) cs).idx = n + 1 from rfl, badState_get? n cs]
    show structLoop f (structStep (badState (n + 1) cs) (Section.content cC1)) = none
    rw [structStep_badState n cs]
    exact ih (n + 1) (cs ++ [pyStrip pfxC1])

theorem structLoop_exC1_stuck :
    ∀ fuel, structLoop fuel ⟨[Section.heading 1 hC1, Section.content cC1], 0, [], [], []⟩
      = none := by
  intro fuel
  cases fuel with
  | zero => rfl
  | succ f =>
    show structLoop (f + 1) _ = none
    simp only [structLoop]
    show structLoop f (structStep ⟨[Section.heading 1 hC1, Section.content cC1], 0, [], [], []⟩
      (Section.heading 1 hC1)) = none
    rw [step0_exC1]
    exact structLoop_badState_stuck f 0 []

/-- C1: on `exC1` the `for section in sections` loop of
`chunk_structured_text` never terminates — each iteration re-queues the
unchanged 300-character content section behind the iterator (and appends
another copy of the stripped label to the chunk list), so no fuel bound
suffices, for the structured path and for the `chunk_text` dispatcher
alike. -/
theorem C1_nontermination :
    ∀ fuel, chunk_structured_text fuel exC1 = none ∧ chunk_text fuel exC1 true = none := by
  intro fuel
  have h1 : chunk_structured_text fuel exC1 = none := by
    simp only [chunk_structured_text]
    rw [parse_exC1, if_neg (by decide : ¬([Section.heading 1 hC1, Section.content cC1] = []))]
    rw [structLoop_exC1_stuck fuel]
  refine ⟨h1, ?_⟩
  have hpers : is_persian_text exC1 = false := by decide
  have hsub : containsSub exC1 (("[HEADING_LEVEL_").data) = true := by decide
  simp only [chunk_text, hpers, hsub, Bool.false_eq_true, if_false, Bool.and_true, if_true]
  exact h1

end RAG
